import Mathlib

/-!
Verification of the rustmsx emulator core against its specification.

The development shallowly embeds the relevant parts of the source:

* `src/msx/src/vdp.rs` — the TMS9918 VDP two-port protocol (`read_vram`,
  `write_98`, `read_register`, `write_register`, `write_99`);
* `src/msx/src/slot.rs` and `src/msx/src/bus.rs` — the slot types and the
  paged memory bus (`memory_segments`, `translate_address`, `read_byte`,
  `write_byte`);
* `src/msx/src/cpu.rs` — the Z80 state and the instruction paths the claims
  mention (`execute_cycle`, HALT, ADC A,B, opcode 0xCF, ED B0 LDIR, `push`).

Machine integers are embedded as `Nat` with explicit wrap-around
(`% 65536`, `% 256`, masks with `&&&`), matching the release-build wrapping
semantics of the Rust source; fallible operations (vector indexing that can
panic, loops that can diverge) are embedded with `Option`, `none` marking a
panic or divergence.  Rust `Vec` indexing is `List` `getElem?`; byte-array
state (`vram`, the 64 KiB memory) is a total function `Nat → Nat` updated
pointwise, with panics surfaced by explicit bound guards exactly where the
source indexes a fixed-size array.
-/

/-- `DisplayMode` from `vdp.rs`. -/
inductive DisplayMode where
  | Text1 : DisplayMode
  | Multicolor : DisplayMode
  | Graphic1 : DisplayMode
  | Graphic2 : DisplayMode

/-- The `TMS9918` VDP state from `vdp.rs`, restricted to the fields the
port protocol reads or writes (`screen_buffer`, `sprites`, `frame`, `line`,
`vblank` are never touched by the port operations and are omitted).
`vram` is the 16 KiB VRAM as a function on addresses `0..0x3FFF`;
`first_write` is the latch (`Option<u8>` in the source). -/
structure TMS9918 where
  vram : Nat → Nat
  data_pre_read : Nat
  registers : Nat → Nat
  status : Nat
  address : Nat
  first_write : Option Nat
  display_mode : DisplayMode

/-- `TMS9918::update_mode` from `vdp.rs`: recompute `display_mode` from the
Mx bits of R0/R1; unsupported patterns fall back to `Text1`. -/
def TMS9918.update_mode (v : TMS9918) : TMS9918 :=
  let mx_bits := ((v.registers 0 &&& 0x0E) >>> 1) ||| ((v.registers 1 &&& 0x18) <<< 2)
  let mode :=
    match mx_bits with
    | 0x00 => DisplayMode.Graphic1
    | 0x01 => DisplayMode.Graphic2
    | 0x08 => DisplayMode.Text1
    | 0x10 => DisplayMode.Multicolor
    | _ => DisplayMode.Text1
  { v with display_mode := mode }

/-- `TMS9918::write_register` from `vdp.rs`: store the latched value into
register `data & 0x07`, then run the register-specific side effects.  Of the
`match reg` arms only the display-mode re-derivation for R0/R1 touches the
embedded state; arms 2..7 only carry comments, and arms 8..14 are
unreachable because `reg ≤ 7`. -/
def TMS9918.write_register (v : TMS9918) (data latched_value : Nat) : TMS9918 :=
  let reg := data &&& 0x07
  let old_value := v.registers reg
  let modified := old_value ^^^ latched_value
  let v1 := { v with registers := fun i => if i = reg then latched_value else v.registers i }
  if reg = 0 ∨ reg = 1 then
    let v2 := if modified &&& 0x0E ≠ 0 then v1.update_mode else v1
    if reg = 1 ∧ modified &&& 0x18 ≠ 0 then v2.update_mode else v2
  else v1

/-- `TMS9918::read_vram` from `vdp.rs` (port 0x98 read): return the
read-ahead value, reload it from `vram[address]`, `wrapping_add(1)` the
address (no `& 0x3FFF` mask in the source), clear the latch.  The VRAM
index panics when `address ≥ 0x4000`, embedded as `none`. -/
def TMS9918.read_vram (v : TMS9918) : Option (Nat × TMS9918) :=
  if v.address < 0x4000 then
    some (v.data_pre_read,
      { v with data_pre_read := v.vram v.address,
               address := (v.address + 1) % 65536,
               first_write := none })
  else none

/-- `TMS9918::write_98` from `vdp.rs` (port 0x98 write): store into
`vram[address]` (panics when `address ≥ 0x4000`, embedded as `none`), set
the read-ahead, advance the address with the `& 0x3FFF` mask, clear the
latch. -/
def TMS9918.write_98 (v : TMS9918) (data : Nat) : Option TMS9918 :=
  if v.address < 0x4000 then
    some { v with vram := fun i => if i = v.address then data else v.vram i,
                  data_pre_read := data,
                  address := (v.address + 1) &&& 0x3FFF,
                  first_write := none }
  else none

/-- `TMS9918::read_register` from `vdp.rs` (port 0x99 read): clear the
latch, return the status byte, clear its bit 7. -/
def TMS9918.read_register (v : TMS9918) : Nat × TMS9918 :=
  (v.status, { v with first_write := none, status := v.status &&& 0x7F })

/-- `TMS9918::write_99` from `vdp.rs` (port 0x99 write).  With no pending
latch: latch the byte and write it into the low bits of `address`.  With a
pending latch `L`: when `data & 0x80 == 0` the source runs `write_register`
and also rewrites the high address bits from `L`; otherwise it treats the
pair as a VRAM-pointer command and, when `data & 0x40 == 0`, pre-reads VRAM
into `status` and `wrapping_add(1)`s the address.  The pre-read VRAM index
would panic when out of range, embedded as `none`. -/
def TMS9918.write_99 (v : TMS9918) (data : Nat) : Option TMS9918 :=
  match v.first_write with
  | some latched_value =>
    if data &&& 0x80 = 0 then
      let v1 := v.write_register data latched_value
      some { v1 with
        address := ((v1.address &&& 0x00FF) ||| ((latched_value &&& 0x3F) <<< 8)) &&& 0x3FFF,
        first_write := none }
    else
      let msb := data &&& 0x3F
      let lsb := latched_value
      let v1 := { v with address := (v.address &&& 0x3C00) ||| (msb <<< 8) ||| lsb }
      if data &&& 0x40 = 0 then
        if v1.address < 0x4000 then
          some { v1 with status := v1.vram v1.address,
                         address := (v1.address + 1) % 65536,
                         first_write := none }
        else none
      else some { v1 with first_write := none }
  | none =>
    some { v with first_write := some data,
                  address := (v.address &&& 0xFF00) ||| data }

/-- `TMS9918::read` port dispatch from `vdp.rs`: 0x98 is the data port,
0x99 the status port, any other port logs and returns 0xFF. -/
def TMS9918.read (v : TMS9918) (port : Nat) : Option (Nat × TMS9918) :=
  if port = 0x98 then v.read_vram
  else if port = 0x99 then some v.read_register
  else some (0xFF, v)

/-- `TMS9918::write` port dispatch from `vdp.rs`. -/
def TMS9918.write (v : TMS9918) (port data : Nat) : Option TMS9918 :=
  if port = 0x98 then v.write_98 data
  else if port = 0x99 then v.write_99 data
  else some v

/-- `TMS9918::default` from `vdp.rs`: everything zeroed, latch clear. -/
def TMS9918.init : TMS9918 :=
  { vram := fun _ => 0, data_pre_read := 0, registers := fun _ => 0,
    status := 0, address := 0, first_write := none,
    display_mode := DisplayMode.Text1 }

/-- A freshly reset VDP whose VRAM pointer sits at the last VRAM cell. -/
def vdpAt3FFF : TMS9918 := { TMS9918.init with address := 0x3FFF }

/-- `SlotType` from `slot.rs`: Empty, ROM, RAM.  ROM and RAM both carry a
`base` offset and a byte vector `data` (the `size` field only determines
`data`'s length at construction and is dropped). -/
inductive SlotType where
  | empty : SlotType
  | rom : Nat → List Nat → SlotType
  | ram : Nat → List Nat → SlotType

/-- `Slot::read` from `slot.rs`: Empty returns 0xFF; ROM/RAM translate by
`address - base` (u16 wrapping subtraction) and index `data`, panicking
(`none`) out of range. -/
def SlotType.read : SlotType → Nat → Option Nat
  | .empty, _ => some 0xFF
  | .rom base data, address => data[(address + 65536 - base) % 65536]?
  | .ram base data, address => data[(address + 65536 - base) % 65536]?

/-- `Slot::write` from `slot.rs`: Empty discards; both `RomSlot::write` and
`RamSlot::write` store the byte into `data[address - base]`, panicking
(`none`) out of range — ROM writes are NOT ignored in the source. -/
def SlotType.write : SlotType → Nat → Nat → Option SlotType
  | .empty, _, _ => some .empty
  | .rom base data, address, value =>
    let i := (address + 65536 - base) % 65536
    if i < data.length then some (.rom base (data.set i value)) else none
  | .ram base data, address, value =>
    let i := (address + 65536 - base) % 65536
    if i < data.length then some (.ram base (data.set i value)) else none

/-- A slot whose backing covers the whole 64 KiB address space, as the
slots built by `Bus::load_rom` / `load_ram` / `load_empty` do (base 0,
size 0x10000). -/
def SlotType.covers : SlotType → Prop
  | .empty => True
  | .rom base data => base = 0 ∧ data.length = 65536
  | .ram base data => base = 0 ∧ data.length = 65536

/-- `MemorySegment` from `bus.rs` (`end` is a Lean keyword, stored here as
`ends`). -/
structure MemorySegment where
  base : Nat
  start : Nat
  ends : Nat
  slot : Nat

/-- The loop body of `Bus::memory_segments` from `bus.rs`, processing the
pages `n, n+1, ...` while `remaining` counts the iterations left (the
source loop runs for `n in 0..4`); carries the accumulated list, the
current run `c` (always `Some` once page 0 is processed) and the
`rolling_bases` array.  The final `segs ++ [c]` is the source's
`segments.push(c.unwrap())`. -/
def segLoop (s : Nat) : Nat -> Nat -> List MemorySegment -> MemorySegment ->
    (Nat -> Nat) -> List MemorySegment
  | 0, _, segs, c, _ => segs ++ [c]
  | remaining + 1, n, segs, c, rolling =>
    let slot := (s >>> (n * 2)) &&& 3
    let start := n * 16384
    let segs2 := if c.slot != slot then segs ++ [c] else segs
    let c2 : MemorySegment :=
      if c.slot != slot then MemorySegment.mk (rolling slot) start (start + 16383) slot
      else MemorySegment.mk c.base c.start (start + 16383) c.slot
    segLoop s remaining (n + 1) segs2 c2
      (fun i => if i = slot then (start + 16384) % 65536 else rolling i)

/-- `Bus::memory_segments` from `bus.rs`: fold the four pages into maximal
runs of contiguous pages mapped to the same slot.  Page 0 is unrolled here
because it turns the accumulator `c` from `None` into `Some`. -/
def memory_segments (s : Nat) : List MemorySegment :=
  let slot0 := (s >>> (0 * 2)) &&& 3
  segLoop s 3 1 [] (MemorySegment.mk 0 0 16383 slot0) (fun i => if i = slot0 then 16384 else 0)

/-- The segment lookup inside `Bus::translate_address` from `bus.rs`: the
first segment with `start ≤ address ≤ end`. -/
def findSeg : List MemorySegment → Nat → Option MemorySegment
  | [], _ => none
  | seg :: rest, a => if seg.start ≤ a ∧ a ≤ seg.ends then some seg else findSeg rest a

/-- The `Bus` from `bus.rs`, restricted to the state that memory access
touches: the four slots and the PPI's `primary_slot_config` byte (the VDP,
PSG and the remaining PPI ports serve only I/O-port dispatch, which no
memory claim involves). -/
structure Bus where
  slots : Fin 4 → SlotType
  primary_slot_config : Nat

/-- `Bus::translate_address` from `bus.rs`: find the segment containing the
address and return its slot index with the address UNCHANGED (the
`relative_address` computation is commented out in the source); the
"Address not found in any segment" panic is `none`. -/
def Bus.translate_address (bus : Bus) (address : Nat) : Option (Nat × Nat) :=
  match findSeg (memory_segments bus.primary_slot_config) address with
  | some seg => some (seg.slot, address)
  | none => none

/-- `Bus::read_byte` from `bus.rs`: translate, then delegate to the slot
(the `slots[slot_number]` array access panics for an index ≥ 4, embedded
as `none`; it is in fact unreachable). -/
def Bus.read_byte (bus : Bus) (addr : Nat) : Option Nat :=
  match bus.translate_address addr with
  | some (slot_number, a) =>
    if h : slot_number < 4 then (bus.slots ⟨slot_number, h⟩).read a else none
  | none => none

/-- `Bus::write_byte` from `bus.rs`: translate, then delegate the write to
the same slot. -/
def Bus.write_byte (bus : Bus) (addr data : Nat) : Option Bus :=
  match bus.translate_address addr with
  | some (slot_number, a) =>
    if h : slot_number < 4 then
      ((bus.slots ⟨slot_number, h⟩).write a data).map
        (fun t => { bus with slots := Function.update bus.slots ⟨slot_number, h⟩ t })
    else none
  | none => none

/-- True when the segment cannot contain any address of page `p`. -/
def missesPage (seg : MemorySegment) (p : Nat) : Bool :=
  decide (seg.ends < 16384 * p) || decide (16384 * p + 16383 < seg.start)

/-- Scans a segment list checking that the first segment able to contain an
address of page `p` contains the whole page and carries slot `slotv`. -/
def checkPage : List MemorySegment → Nat → Nat → Bool
  | [], _, _ => false
  | seg :: rest, p, slotv =>
    if missesPage seg p then checkPage rest p slotv
    else decide (seg.start ≤ 16384 * p) && decide (16384 * p + 16383 ≤ seg.ends)
      && (seg.slot == slotv)

/-- A bus with four Empty slots (`Bus::default`). -/
def busEmpty : Bus := { slots := fun _ => SlotType.empty, primary_slot_config := 0 }

/-- A bus whose slot 0 is a one-byte ROM (`RomSlot::new(&[0xAA], 0, 1)`),
the other slots Empty, slot-select 0. -/
def busRom : Bus :=
  { slots := fun i => if i = 0 then SlotType.rom 0 [0xAA] else SlotType.empty,
    primary_slot_config := 0 }

/-- Pointwise update of a 64 KiB byte store at a (wrapped) 16-bit
address. -/
def memWrite (m : Nat → Nat) (addr v : Nat) : Nat → Nat :=
  fun x => if x = addr % 65536 then v else m x

/-- The `Z80` CPU state from `cpu.rs`.  The shared `Arc<RwLock<Bus>>` is
embedded as the CPU's view of memory, `mem : Nat → Nat`: the flat 64 KiB
byte store obtained when RAM-like slots back every page, which is the
configuration the CPU-level claims (stack pushes, LDIR copies, BDOS string
scans) speak about; the paged dispatch itself is verified separately on the
`Bus` model above.  `out` collects the bytes the source `print!`s to the
host console.  The debug fields `track_flags` / `last_f` never influence
execution and are omitted. -/
structure Z80 where
  a : Nat
  f : Nat
  b : Nat
  c : Nat
  d : Nat
  e : Nat
  h : Nat
  l : Nat
  a_alt : Nat
  f_alt : Nat
  b_alt : Nat
  c_alt : Nat
  d_alt : Nat
  e_alt : Nat
  h_alt : Nat
  l_alt : Nat
  sp : Nat
  pc : Nat
  ix : Nat
  iy : Nat
  iff1 : Bool
  iff2 : Bool
  im : Nat
  interrupt_request : Bool
  halted : Bool
  max_cycles : Option Nat
  cycles : Nat
  mem : Nat → Nat
  out : List Nat

/-- `Z80::read_byte` (via `Bus::read_byte`) on the flat memory view. -/
def Z80.read_byte (s : Z80) (address : Nat) : Nat :=
  s.mem (address % 65536)

/-- `Z80::write_byte` (via `Bus::write_byte`) on the flat memory view. -/
def Z80.write_byte (s : Z80) (address value : Nat) : Z80 :=
  { s with mem := memWrite s.mem address value }

/-- `Bus::write_word` from `bus.rs`: low byte at `address`, high byte at
`address + 1` (wrapping at 16 bits). -/
def Z80.write_word (s : Z80) (address value : Nat) : Z80 :=
  let low_byte := value &&& 0x00FF
  let high_byte := (value &&& 0xFF00) >>> 8
  (s.write_byte address low_byte).write_byte ((address + 1) % 65536) high_byte

/-- `Z80::get_flag` from `cpu.rs`: `self.f & mask != 0`. -/
def Z80.get_flag (s : Z80) (mask : Nat) : Bool :=
  s.f &&& mask != 0

/-- `Z80::set_flag` from `cpu.rs`: set or clear the masked bit of F
(`!(flag as u8)` is `0xFF ^ mask`). -/
def Z80.set_flag (s : Z80) (mask : Nat) (value : Bool) : Z80 :=
  if value then { s with f := s.f ||| mask } else { s with f := s.f &&& (0xFF ^^^ mask) }

/-- `Z80::get_bc`. -/
def Z80.get_bc (s : Z80) : Nat := (s.b <<< 8) ||| s.c

/-- `Z80::get_de`. -/
def Z80.get_de (s : Z80) : Nat := (s.d <<< 8) ||| s.e

/-- `Z80::get_hl`. -/
def Z80.get_hl (s : Z80) : Nat := (s.h <<< 8) ||| s.l

/-- `Z80::set_bc`: high byte truncated by `as u8`. -/
def Z80.set_bc (s : Z80) (value : Nat) : Z80 :=
  { s with b := (value >>> 8) % 256, c := value &&& 0xFF }

/-- `Z80::set_de`. -/
def Z80.set_de (s : Z80) (value : Nat) : Z80 :=
  { s with d := (value >>> 8) % 256, e := value &&& 0xFF }

/-- `Z80::set_hl`. -/
def Z80.set_hl (s : Z80) (value : Nat) : Z80 :=
  { s with h := (value >>> 8) % 256, l := value &&& 0xFF }

/-- `Z80::adc_a` from `cpu.rs`: `A ← A + value + carry` with the Z, N, H
and C updates the source performs (it does not touch S or P/V); the u8
expression `0xFF - value - carry` wraps, embedded as
`(511 - value - carry) % 256`. -/
def Z80.adc_a (s : Z80) (value : Nat) : Z80 :=
  let a := s.a
  let carry := if s.get_flag 0x01 then 1 else 0
  let result := ((a + value) % 256 + carry) % 256
  let s1 := s.set_flag 0x40 (result = 0)
  let s2 := s1.set_flag 0x02 false
  let s3 := s2.set_flag 0x10 ((a &&& 0x0F) + (value &&& 0x0F) + carry > 0x0F)
  let s4 := s3.set_flag 0x01 (a > (511 - value - carry) % 256)
  { s4 with a := result }

/-- `Z80::push` from `cpu.rs`: pre-decrement SP by 2 (wrapping), then
`write_word` the value there (little-endian). -/
def Z80.push (s : Z80) (value : Nat) : Z80 :=
  let s1 := { s with sp := (s.sp + 65534) % 65536 }
  s1.write_word s1.sp value

/-- The BDOS function-9 loop of opcode 0xCF in `cpu.rs`: print bytes from
the given address until a dollar terminator (0x24), wrapping the address at
16 bits.  The source loop never terminates when no byte of the 64 KiB
address space is 0x24, so a fuel of 65536 — one visit to every address —
is exact: `none` means the source diverges. -/
def bdosString : Nat → (Nat → Nat) → Nat → Option (List Nat)
  | 0, _, _ => none
  | fuel + 1, m, address =>
    let ch := m (address % 65536)
    if ch = 0x24 then some []
    else (bdosString fuel m ((address + 1) % 65536)).map (fun cs => ch :: cs)

/-- The `while count != 0` loop of ED B0 (LDIR) in `cpu.rs`: copy one byte
from `src` to `dst` per iteration, incrementing both (wrapping) and
`wrapping_sub(1)`-ing `count`.  The loop runs exactly `count` iterations,
so running it with `fuel = count` is exact; `none` marks fuel exhaustion
and is never hit from `execute`. -/
def ldirLoop : Nat → (Nat → Nat) → Nat → Nat → Nat → Option ((Nat → Nat) × Nat × Nat × Nat)
  | fuel, m, src, dst, count =>
    if count = 0 then some (m, src, dst, count)
    else
      match fuel with
      | 0 => none
      | fuel + 1 =>
        ldirLoop fuel (memWrite m dst (m (src % 65536)))
          ((src + 1) % 65536) ((dst + 1) % 65536) ((count + 65535) % 65536)

/-- The loop-exit code of ED B0 (LDIR) in `cpu.rs`: store the final
memory, `set_hl`/`set_de`/`set_bc` the advanced pointers and the zero
count, clear the P, H and N flags, advance PC past the extended opcode. -/
def ldir_apply (s1 : Z80) (r : (Nat → Nat) × Nat × Nat × Nat) : Z80 :=
  let s2 := { s1 with mem := r.1 }
  let s3 := s2.set_hl r.2.1
  let s4 := s3.set_de r.2.2.1
  let s5 := s4.set_bc r.2.2.2
  let s6 := ((s5.set_flag 0x04 false).set_flag 0x10 false).set_flag 0x02 false
  { s6 with pc := (s6.pc + 1) % 65536 }

/-- `Z80::execute` from `cpu.rs`, restricted to the opcode arms the claims
mention: 0x00 (NOP), 0xCF (the BDOS hook that replaces RST 08h), 0x76
(HALT), 0x88 (ADC A,B — the source passes `self.a` to `adc_a`), and
0xED/0xB0 (LDIR).  All other arms of the source's `match` are outside the
claims and are embedded as `none`, as is the source's unknown-opcode
panic. -/
def Z80.execute (s : Z80) (opcode : Nat) : Option Z80 :=
  if opcode = 0x00 then
    some { s with pc := (s.pc + 1) % 65536 }
  else if opcode = 0xCF then
    if s.c = 0x02 then
      some { s with out := s.out ++ [s.e], pc := (s.pc + 1) % 65536 }
    else if s.c = 0x09 then
      (bdosString 65536 s.mem s.get_de).map
        (fun cs => { s with out := s.out ++ cs, pc := (s.pc + 1) % 65536 })
    else none
  else if opcode = 0x76 then
    some { s with pc := (s.pc + 1) % 65536, halted := true }
  else if opcode = 0x88 then
    let s1 := s.adc_a s.a
    some { s1 with pc := (s1.pc + 1) % 65536 }
  else if opcode = 0xED then
    let s1 := { s with pc := (s.pc + 1) % 65536 }
    let extended_opcode := s1.read_byte s1.pc
    if extended_opcode = 0xB0 then
      (ldirLoop s1.get_bc s1.mem s1.get_hl s1.get_de s1.get_bc).map (ldir_apply s1)
    else none
  else none

/-- `Z80::execute_cycle` from `cpu.rs`: bump `cycles`; return early when
halted; panic (`none`) when `max_cycles` is set and reached; accept a
pending interrupt when `IFF1` is set (clearing only `interrupt_request`
and `iff1`, pushing PC and jumping to 0x0038); otherwise fetch at PC and
execute. -/
def Z80.execute_cycle (s : Z80) : Option Z80 :=
  let s1 := { s with cycles := s.cycles + 1 }
  if s1.halted then some s1
  else if (match s1.max_cycles with
           | some mx => decide (mx ≤ s1.cycles)
           | none => false) then none
  else if s1.interrupt_request && s1.iff1 then
    let s2 := { s1 with interrupt_request := false, iff1 := false }
    let s3 := s2.push s2.pc
    some { s3 with pc := 0x0038 }
  else
    s1.execute (s1.read_byte s1.pc)

/-- `Z80::new` from `cpu.rs`: main and alternate registers 0xFF,
SP = 0xFFFF, everything else cleared; the default bus (all slots Empty)
reads 0xFF everywhere. -/
def Z80.init : Z80 :=
  { a := 0xFF, f := 0xFF, b := 0xFF, c := 0xFF, d := 0xFF, e := 0xFF, h := 0xFF, l := 0xFF,
    a_alt := 0xFF, f_alt := 0xFF, b_alt := 0xFF, c_alt := 0xFF,
    d_alt := 0xFF, e_alt := 0xFF, h_alt := 0xFF, l_alt := 0xFF,
    sp := 0xFFFF, pc := 0, ix := 0, iy := 0,
    iff1 := false, iff2 := false, im := 0,
    interrupt_request := false, halted := false,
    max_cycles := none, cycles := 0,
    mem := fun _ => 0xFF, out := [] }

/-- A CPU with both interrupt flip-flops set and an interrupt pending. -/
def cpuIrq : Z80 :=
  { Z80.init with iff1 := true, iff2 := true, interrupt_request := true,
                  sp := 0x100, pc := 0x200, mem := fun _ => 0 }

/-- A CPU about to run ADC A,B with A=1, B=2 and carry clear. -/
def cpuAdc : Z80 := { Z80.init with a := 1, b := 2, f := 0 }

/-- A halted CPU. -/
def cpuHalted : Z80 := { Z80.init with halted := true }

/-- A CPU about to run LDIR with BC=2, HL=0, DE=1 — overlapping source and
destination — over memory `[1, 2, 0, …]` (with the ED B0 opcode bytes at
PC = 0x8000). -/
def cpuLdir : Z80 :=
  { Z80.init with b := 0, c := 2, d := 0, e := 1, h := 0, l := 0, f := 0, pc := 0x8000,
                  mem := fun x => if x = 0x8001 then 0xB0
                                  else if x = 0 then 1
                                  else if x = 1 then 2 else 0 }

/-- A CPU about to run opcode 0xCF with C=9 and DE pointing into a memory
with no dollar byte (0x24) anywhere. -/
def cpuBdosNone : Z80 :=
  { Z80.init with c := 9, d := 0, e := 0, mem := fun _ => 0 }

/-- A CPU about to run opcode 0xCF with C=9 and DE pointing directly at a
dollar terminator (0x24). -/
def cpuBdosTerm : Z80 :=
  { Z80.init with c := 9, d := 0, e := 0, mem := fun x => if x = 0 then 0x24 else 0 }

/-- A CPU about to run opcode 0xCF with C=2 (output the character in E). -/
def cpuBdosChar : Z80 := { Z80.init with c := 2, e := 0x41 }

/-- Claim C1: the spec prescribes that after a latched write of `L` then
`d` to port 0x99, `d & 0x80 ≠ 0` is a register command storing `L` into
register `d & 0x07`.  The source has the two command branches swapped:
on the input `L = 0x20`, `d = 0x81` (the spec's own scenario expecting
`R1 = 0x20`) the code takes the pointer branch instead, leaves register 1
at 0, sets the address to 0x0121 after pre-reading VRAM into `status`
(not into the read-ahead buffer), and clears the latch. -/
theorem write99_swapped_branches :
    ((TMS9918.init.write_99 0x20).bind (fun v => v.write_99 0x81)).map
        (fun v => v.registers 1) = some 0
    ∧ (0 : Nat) ≠ 0x20
    ∧ ((TMS9918.init.write_99 0x20).bind (fun v => v.write_99 0x81)).map
        (fun v => v.address) = some 0x121
    ∧ ((TMS9918.init.write_99 0x20).bind (fun v => v.write_99 0x81)).map
        (fun v => v.first_write) = some none := by
  refine ⟨rfl, by decide, rfl, rfl⟩

/-- Claim C3: the spec's invariant `address ∈ [0, 0x4000)` after any VDP
port operation is violated by the code: a port-0x98 read performed when
`address = 0x3FFF` executes `wrapping_add(1)` without the `& 0x3FFF` mask
(which `write_98` in the same file does apply), leaving `address = 0x4000`,
and the next data-port read then indexes `vram[0x4000]` and panics
(embedded as `none`). -/
theorem read_vram_escapes_range :
    ∃ p : Nat × TMS9918, vdpAt3FFF.read 0x98 = some p
      ∧ p.2.address = 0x4000
      ∧ ¬ p.2.address < 0x4000
      ∧ p.2.read 0x98 = none := by
  refine ⟨(0, { vdpAt3FFF with data_pre_read := 0, address := 0x4000, first_write := none }),
    rfl, rfl, by decide, rfl⟩

set_option maxRecDepth 4096 in
/-- The page-check succeeds for every slot-select byte and page: the first
segment of `memory_segments s` that can meet page `p` contains the whole
page and carries the slot `(s >> 2p) & 3`.  Verified by evaluation over all
256 slot-select bytes. -/
theorem seg_check : ∀ s, s < 256 → ∀ p, p < 4 →
    checkPage (memory_segments s) p ((s >>> (2 * p)) &&& 3) = true := by decide

/-- From a successful page-check, the source's first-match segment lookup
at any address of that page finds a segment carrying the checked slot. -/
theorem findSeg_page (segs : List MemorySegment) (p slotv a : Nat)
    (hchk : checkPage segs p slotv = true) (hp : a / 16384 = p) (ha : a < 65536) :
    ∃ seg, findSeg segs a = some seg ∧ seg.slot = slotv := by
  induction segs with
  | nil => simp [checkPage] at hchk
  | cons seg rest ih =>
    by_cases hm : missesPage seg p = true
    · have hnot : ¬ (seg.start ≤ a ∧ a ≤ seg.ends) := by
        simp only [missesPage, Bool.or_eq_true, decide_eq_true_eq] at hm
        omega
      rw [checkPage, if_pos hm] at hchk
      obtain ⟨s2, h1, h2⟩ := ih hchk
      exact ⟨s2, by rw [findSeg, if_neg hnot]; exact h1, h2⟩
    · rw [checkPage, if_neg hm] at hchk
      simp only [Bool.and_eq_true, decide_eq_true_eq, beq_iff_eq] at hchk
      obtain ⟨⟨h1, h2⟩, h3⟩ := hchk
      have hcond : seg.start ≤ a ∧ a ≤ seg.ends := by omega
      exact ⟨seg, by rw [findSeg, if_pos hcond], h3⟩

/-- `Bus::translate_address` always yields the claim's slot index — the
2-bit field of the slot-select byte chosen by the address's top two bits —
paired with the unchanged address. -/
theorem translate_address_page (bus : Bus) (a : Nat)
    (ha : a < 65536) (hS : bus.primary_slot_config < 256) :
    bus.translate_address a
      = some ((bus.primary_slot_config >>> (2 * ((a >>> 14) % 4))) % 4, a) := by
  have hp : a >>> 14 = a / 16384 := by omega
  have hp4 : a / 16384 < 4 := by omega
  have hchk := seg_check bus.primary_slot_config hS (a / 16384) hp4
  obtain ⟨seg, hfind, hslot⟩ := findSeg_page _ _ _ a hchk rfl ha
  unfold Bus.translate_address
  rw [hfind]
  dsimp only
  rw [hslot]
  have hmod : (a >>> 14) % 4 = a / 16384 := by omega
  rw [hmod]
  have hand : (bus.primary_slot_config >>> (2 * (a / 16384))) &&& 3
      = (bus.primary_slot_config >>> (2 * (a / 16384))) % 4 :=
    Nat.and_pow_two_sub_one_eq_mod _ 2
  rw [hand]

/-- Claim C2: for every slot-select byte and 16-bit address, the Bus
delegates `read_byte` to `slots[(S >> (2*((a >> 14) & 3))) & 3]` with the
full address passed unchanged, and `write_byte` delegates to exactly the
same slot index. -/
theorem bus_slot_delegation (bus : Bus) (a dat : Nat)
    (ha : a < 65536) (hS : bus.primary_slot_config < 256) :
    bus.translate_address a
      = some ((bus.primary_slot_config >>> (2 * ((a >>> 14) % 4))) % 4, a)
  ∧ bus.read_byte a
      = (bus.slots ⟨(bus.primary_slot_config >>> (2 * ((a >>> 14) % 4))) % 4, by omega⟩).read a
  ∧ bus.write_byte a dat
      = ((bus.slots ⟨(bus.primary_slot_config >>> (2 * ((a >>> 14) % 4))) % 4, by omega⟩).write a dat).map
          (fun t => { bus with
            slots := Function.update bus.slots
              ⟨(bus.primary_slot_config >>> (2 * ((a >>> 14) % 4))) % 4, by omega⟩ t }) := by
  have ht := translate_address_page bus a ha hS
  refine ⟨ht, ?_, ?_⟩
  · rw [Bus.read_byte, ht]
    dsimp only
    rw [dif_pos (show (bus.primary_slot_config >>> (2 * ((a >>> 14) % 4))) % 4 < 4 by omega)]
  · rw [Bus.write_byte, ht]
    dsimp only
    rw [dif_pos (show (bus.primary_slot_config >>> (2 * ((a >>> 14) % 4))) % 4 < 4 by omega)]

/-- Witness for C2: on the concrete bus `busRom` at address 5, the read
delegates to slot 0. -/
theorem bus_slot_delegation_witness :
    busRom.read_byte 5 = (busRom.slots ⟨0, by omega⟩).read 5 :=
  (bus_slot_delegation busRom 5 7 (by decide) (by decide)).2.1

/-- Claim C6 (amended): the "address not found in any segment" panic of
`translate_address` is unreachable for every slot configuration and every
slot-select byte; and when every slot's backing covers the full 64 KiB
space (as the slots built by `Bus::load_rom` / `load_ram` / `load_empty`
do), `read_byte` always returns a byte.  The original claim — no failure
for EVERY configuration of the four slots — is refuted by
`bus_read_short_rom_panics` below. -/
theorem bus_read_total (bus : Bus) (a : Nat)
    (ha : a < 65536) (hS : bus.primary_slot_config < 256) :
    (∃ pr, bus.translate_address a = some pr)
    ∧ ((∀ i : Fin 4, (bus.slots i).covers) → ∃ v, bus.read_byte a = some v) := by
  have ht := translate_address_page bus a ha hS
  refine ⟨⟨_, ht⟩, fun hcov => ?_⟩
  have hlt : (bus.primary_slot_config >>> (2 * ((a >>> 14) % 4))) % 4 < 4 := by omega
  rw [Bus.read_byte, ht]
  dsimp only
  rw [dif_pos hlt]
  rcases hsl : bus.slots ⟨_, hlt⟩ with _ | ⟨base, data⟩ | ⟨base, data⟩
  · exact ⟨0xFF, rfl⟩
  · have hcv := hcov ⟨_, hlt⟩
    rw [hsl] at hcv
    obtain ⟨hb0, hlen⟩ := hcv
    have hidx : (a + 65536 - base) % 65536 = a := by omega
    rw [SlotType.read, hidx]
    rcases hx : data[a]? with _ | v
    · rw [List.getElem?_eq_none_iff] at hx
      omega
    · exact ⟨v, rfl⟩
  · have hcv := hcov ⟨_, hlt⟩
    rw [hsl] at hcv
    obtain ⟨hb0, hlen⟩ := hcv
    have hidx : (a + 65536 - base) % 65536 = a := by omega
    rw [SlotType.read, hidx]
    rcases hx : data[a]? with _ | v
    · rw [List.getElem?_eq_none_iff] at hx
      omega
    · exact ⟨v, rfl⟩

/-- Witness for C6 on the all-Empty bus at address 3. -/
theorem bus_read_total_witness :
    (∃ pr, busEmpty.translate_address 3 = some pr)
    ∧ ∃ v, busEmpty.read_byte 3 = some v :=
  ⟨(bus_read_total busEmpty 3 (by decide) (by decide)).1,
   (bus_read_total busEmpty 3 (by decide) (by decide)).2 (fun _ => trivial)⟩

/-- Counterexample to C6 as stated: with slot 0 a one-byte ROM, reading
address 1 reaches `RomSlot::read`'s out-of-range index and panics
(`none`) — `read_byte` does not always return a byte for every slot
configuration. -/
theorem bus_read_short_rom_panics : busRom.read_byte 1 = none := by decide

/-- Claim C9 (amended): `Bus::write_byte` to an address mapped to a ROM
slot stores the byte into the ROM's backing data — `RomSlot::write` is a
real write, not a discard — so reading the same address back yields the
written byte, not the previous ROM contents. -/
theorem rom_write_readback (bus : Bus) (a dat base : Nat) (data : List Nat)
    (ha : a < 65536) (hS : bus.primary_slot_config < 256)
    (hslot : bus.slots ⟨(bus.primary_slot_config >>> (2 * ((a >>> 14) % 4))) % 4, by omega⟩
      = SlotType.rom base data)
    (hin : (a + 65536 - base) % 65536 < data.length) :
    ∃ bus2, bus.write_byte a dat = some bus2 ∧ bus2.read_byte a = some dat := by
  have hlt : (bus.primary_slot_config >>> (2 * ((a >>> 14) % 4))) % 4 < 4 := by omega
  have ht := translate_address_page bus a ha hS
  refine ⟨{ bus with slots := Function.update bus.slots ⟨_, hlt⟩ (SlotType.rom base (data.set ((a + 65536 - base) % 65536) dat)) }, ?_, ?_⟩
  · rw [Bus.write_byte, ht]
    dsimp only
    rw [dif_pos hlt, hslot]
    simp only [SlotType.write]
    rw [if_pos hin]
    rfl
  · have ht2 := translate_address_page { bus with slots := Function.update bus.slots ⟨_, hlt⟩ (SlotType.rom base (data.set ((a + 65536 - base) % 65536) dat)) } a ha hS
    rw [Bus.read_byte, ht2]
    dsimp only
    rw [dif_pos hlt, Function.update_same, SlotType.read]
    exact List.getElem?_set_eq_of_lt dat hin

/-- Witness for C9: writing 0x42 through the bus into the one-byte ROM at
address 0 and reading it back returns 0x42. -/
theorem rom_write_readback_witness :
    ∃ bus2, busRom.write_byte 0 0x42 = some bus2 ∧ bus2.read_byte 0 = some 0x42 :=
  rom_write_readback busRom 0 0x42 0 [0xAA] (by decide) (by decide) rfl (by decide)

/-- Counterexample to C9 as stated: the ROM at address 0 reads 0xAA before
and 0x55 after `write_byte 0 0x55` — the write is retained, not ignored. -/
theorem rom_write_not_ignored :
    busRom.read_byte 0 = some 0xAA
    ∧ (busRom.write_byte 0 0x55).bind (fun b2 => b2.read_byte 0) = some 0x55
    ∧ (0x55 : Nat) ≠ 0xAA := by
  refine ⟨by decide, by decide, by decide⟩

/-- Composing a high byte shifted left by 8 with a low byte below 256. -/
theorem or_shift8 (hi lo : Nat) (hlo : lo < 256) : (hi <<< 8) ||| lo = hi * 256 + lo := by
  have h1 := Nat.mul_add_lt_is_or (show lo < 2 ^ 8 from hlo) hi
  rw [Nat.shiftLeft_eq]
  rw [show hi * 2 ^ 8 = 2 ^ 8 * hi from by ring]
  omega

/-- Extracting the high byte: `(x & 0xFF00) >> 8` equals `(x >> 8) & 0xFF`. -/
theorem and_ff00_shr (x : Nat) : (x &&& 0xFF00) >>> 8 = (x >>> 8) &&& 0xFF := by
  have he : (0xFF00 : Nat) = 255 <<< 8 := by decide
  rw [he]
  apply Nat.eq_of_testBit_eq
  intro i
  simp only [Nat.testBit_shiftRight, Nat.testBit_and, Nat.testBit_shiftLeft]
  simp [show (8 : Nat) ≤ 8 + i from by omega, Nat.add_sub_cancel_left]

/-- The 16-bit register write/read round trip used by `set_hl`/`get_hl`
and friends. -/
theorem set_get_pair (v : Nat) (hv : v < 65536) :
    (((v >>> 8) % 256) <<< 8) ||| (v &&& 0xFF) = v := by
  have h1 : v >>> 8 = v / 256 := by omega
  have h2 : v &&& 0xFF = v % 256 := Nat.and_pow_two_sub_one_eq_mod v 8
  have h3 : v / 256 % 256 = v / 256 := by omega
  rw [h1, h2, h3, or_shift8 _ _ (by omega)]
  omega

/-- Claim C8: executing HALT (0x76) sets `halted` and advances PC past the
opcode exactly once; and every step taken while `halted` is set returns the
state unchanged except for `cycles`, which grows by one — in this source
even a pending interrupt does not end the halt, so the no-op behaviour
holds unconditionally at every halted step. -/
theorem halt_semantics :
    (∀ s : Z80, s.execute 0x76 = some { s with pc := (s.pc + 1) % 65536, halted := true })
    ∧ (∀ s : Z80, s.halted = true → s.execute_cycle = some { s with cycles := s.cycles + 1 }) := by
  refine ⟨fun s => rfl, fun s hh => ?_⟩
  rw [Z80.execute_cycle]
  simp only [hh, if_true]

/-- Witness for C8: one step of a concrete halted CPU only bumps
`cycles`. -/
theorem halt_semantics_witness :
    cpuHalted.execute_cycle = some { cpuHalted with cycles := cpuHalted.cycles + 1 } :=
  halt_semantics.2 cpuHalted rfl

/-- Claim C5 (the code bug the spec itself flags): on A=1, B=2, carry
clear, opcode 0x88 leaves A = 2 — the source passes `self.a` to `adc_a`, so
it computes A+A+carry instead of the claimed (A+B+carry) mod 256 = 3. -/
theorem adc_a_b_adds_a :
    (cpuAdc.execute 0x88).map (fun t => t.a) = some 2 ∧ (2 : Nat) ≠ (1 + 2) % 256 := by
  exact ⟨rfl, by decide⟩

/-- Claim C4 (amended): when the CPU is NOT halted, no cycle limit is set,
an interrupt is pending and IFF1 is true, one step clears IFF1 and the
pending flag — IFF2 is left unchanged, not cleared — pushes the pre-step
PC little-endian at SP-2/SP-1 (SP decremented by 2, wrapping), jumps to
0x0038, and leaves `halted` false; all other memory is untouched.  The
original claim fails on IFF2 (see `interrupt_leaves_iff2`) and would also
fail for a halted CPU, whose step returns before the interrupt check. -/
theorem interrupt_acceptance (s : Z80)
    (hhalt : s.halted = false) (hmax : s.max_cycles = none)
    (hirq : s.interrupt_request = true) (hiff : s.iff1 = true)
    (hpc : s.pc < 65536) (hsp : s.sp < 65536) :
    ∃ s2, s.execute_cycle = some s2
      ∧ s2.iff1 = false
      ∧ s2.iff2 = s.iff2
      ∧ s2.interrupt_request = false
      ∧ s2.halted = false
      ∧ s2.pc = 0x0038
      ∧ s2.sp = (s.sp + 65534) % 65536
      ∧ s2.cycles = s.cycles + 1
      ∧ s2.mem ((s.sp + 65534) % 65536) = s.pc % 256
      ∧ s2.mem ((s.sp + 65535) % 65536) = s.pc / 256
      ∧ (∀ x, x ≠ (s.sp + 65534) % 65536 → x ≠ (s.sp + 65535) % 65536 → s2.mem x = s.mem x) := by
  obtain ⟨rA, rF, rB, rC, rD, rE, rH, rL, sA, sF, sB, sC, sD, sE, sH, sL,
    vsp, vpc, vix, viy, vif1, vif2, vim, virq, vhalt, vmax, vcyc, vmem, vout⟩ := s
  simp only at hhalt hmax hirq hiff hpc hsp
  subst hhalt hmax hirq hiff
  refine ⟨{ a := rA, f := rF, b := rB, c := rC, d := rD, e := rE, h := rH, l := rL,
            a_alt := sA, f_alt := sF, b_alt := sB, c_alt := sC, d_alt := sD, e_alt := sE,
            h_alt := sH, l_alt := sL,
            sp := (vsp + 65534) % 65536, pc := 0x0038, ix := vix, iy := viy,
            iff1 := false, iff2 := vif2, im := vim,
            interrupt_request := false, halted := false, max_cycles := none,
            cycles := vcyc + 1,
            mem := memWrite (memWrite vmem ((vsp + 65534) % 65536) (vpc &&& 0x00FF))
              (((vsp + 65534) % 65536 + 1) % 65536) ((vpc &&& 0xFF00) >>> 8),
            out := vout }, rfl, rfl, rfl, rfl, rfl, rfl, rfl, rfl, ?_, ?_, ?_⟩
  · have hand : vpc &&& 0x00FF = vpc % 256 := Nat.and_pow_two_sub_one_eq_mod vpc 8
    simp only [memWrite]
    rw [if_neg (by omega), if_pos (by omega)]
    exact hand
  · have hand : (vpc &&& 0xFF00) >>> 8 = vpc / 256 := by
      have h1 := and_ff00_shr vpc
      have h2 : vpc >>> 8 = vpc / 256 := by omega
      have h3 : vpc / 256 &&& 255 = vpc / 256 % 256 := Nat.and_pow_two_sub_one_eq_mod _ 8
      rw [h1, h2, h3]
      omega
    simp only [memWrite]
    rw [if_pos (by omega)]
    exact hand
  · intro x hx1 hx2
    simp only at hx1 hx2
    simp only [memWrite]
    rw [if_neg (by omega), if_neg (by omega)]

/-- Witness for C4 on the concrete state `cpuIrq`. -/
theorem interrupt_acceptance_witness :
    ∃ s2, cpuIrq.execute_cycle = some s2
      ∧ s2.iff1 = false
      ∧ s2.iff2 = cpuIrq.iff2
      ∧ s2.interrupt_request = false
      ∧ s2.halted = false
      ∧ s2.pc = 0x0038
      ∧ s2.sp = (cpuIrq.sp + 65534) % 65536
      ∧ s2.cycles = cpuIrq.cycles + 1
      ∧ s2.mem ((cpuIrq.sp + 65534) % 65536) = cpuIrq.pc % 256
      ∧ s2.mem ((cpuIrq.sp + 65535) % 65536) = cpuIrq.pc / 256
      ∧ (∀ x, x ≠ (cpuIrq.sp + 65534) % 65536 → x ≠ (cpuIrq.sp + 65535) % 65536 →
          s2.mem x = cpuIrq.mem x) :=
  interrupt_acceptance cpuIrq rfl rfl rfl rfl (by decide) (by decide)

/-- Counterexample to C4 as stated: the interrupt path clears only IFF1;
on `cpuIrq` (which has IFF2 set) the step leaves IFF2 true, while the
claim demands both flip-flops cleared. -/
theorem interrupt_leaves_iff2 :
    (cpuIrq.execute_cycle).map (fun t => t.iff2) = some true ∧ true ≠ false := by
  exact ⟨rfl, by decide⟩

/-- When no byte of memory is the dollar terminator (0x24), the BDOS function-9
scan never finds one: the source loop diverges regardless of fuel. -/
theorem bdosString_none (m : Nat → Nat) (hm : ∀ x, m x ≠ 0x24) :
    ∀ fuel address, bdosString fuel m address = none := by
  intro fuel
  induction fuel with
  | zero => intro address; rfl
  | succ n ih =>
    intro address
    simp only [bdosString]
    rw [if_neg (hm (address % 65536)), ih]
    rfl

/-- When some byte within the reach of the scan is the dollar terminator (0x24), the
BDOS function-9 scan terminates with the collected characters. -/
theorem bdosString_finds (fuel : Nat) : ∀ (m : Nat → Nat) (address : Nat), address < 65536 →
    (∃ k, k < fuel ∧ m ((address + k) % 65536) = 0x24) →
    ∃ cs, bdosString fuel m address = some cs := by
  induction fuel with
  | zero =>
    intro m address _ hex
    obtain ⟨k, hk, _⟩ := hex
    omega
  | succ n ih =>
    intro m address ha hex
    obtain ⟨k, hk, hterm⟩ := hex
    simp only [bdosString]
    by_cases h0 : m (address % 65536) = 0x24
    · rw [if_pos h0]
      exact ⟨[], rfl⟩
    · rw [if_neg h0]
      have hk0 : k ≠ 0 := by
        intro hke
        subst hke
        rw [show (address + 0) % 65536 = address % 65536 from by omega] at hterm
        exact h0 hterm
      obtain ⟨cs, hcs⟩ := ih m ((address + 1) % 65536) (by omega)
        ⟨k - 1, by omega, by
          rw [show ((address + 1) % 65536 + (k - 1)) % 65536 = (address + k) % 65536 from by omega]
          exact hterm⟩
      rw [hcs]
      exact ⟨m (address % 65536) :: cs, rfl⟩

/-- Claim C10 (amended): opcode 0xCF never performs RST 08h — it pushes
nothing and only advances PC by one.  With C = 0x02 it emits the character
in E; with C = 0x09 it emits the bytes from DE up to a dollar terminator (0x24)
PROVIDED one exists somewhere in memory — with no dollar byte anywhere the
source loop never terminates (see `bdos_no_terminator_diverges`); with any
other C it panics.  Registers, flags, SP and memory are unchanged in the
terminating cases. -/
theorem bdos_hook_semantics :
    (∀ s : Z80, s.c = 0x02 →
      s.execute 0xCF = some { s with out := s.out ++ [s.e], pc := (s.pc + 1) % 65536 })
    ∧ (∀ s : Z80, s.c = 0x09 → s.d < 256 → s.e < 256 →
        (∃ k, k < 65536 ∧ s.mem ((s.get_de + k) % 65536) = 0x24) →
        ∃ cs, s.execute 0xCF = some { s with out := s.out ++ cs, pc := (s.pc + 1) % 65536 })
    ∧ (∀ s : Z80, s.c ≠ 0x02 → s.c ≠ 0x09 → s.execute 0xCF = none) := by
  refine ⟨fun s hc => ?_, fun s hc hd he hex => ?_, fun s h2 h9 => ?_⟩
  · simp [Z80.execute, hc]
  · have hde : s.get_de = s.d * 256 + s.e := or_shift8 _ _ he
    obtain ⟨cs, hcs⟩ := bdosString_finds 65536 s.mem s.get_de (by omega) hex
    exact ⟨cs, by simp [Z80.execute, hc, hcs]⟩
  · simp [Z80.execute, h2, h9]

/-- Witness for C10 on concrete states: character output with C=2,
terminated string output with C=9, panic with C=0xFF. -/
theorem bdos_hook_semantics_witness :
    (cpuBdosChar.execute 0xCF
      = some { cpuBdosChar with out := cpuBdosChar.out ++ [cpuBdosChar.e],
                                pc := (cpuBdosChar.pc + 1) % 65536 })
    ∧ (∃ cs, cpuBdosTerm.execute 0xCF
      = some { cpuBdosTerm with out := cpuBdosTerm.out ++ cs,
                                pc := (cpuBdosTerm.pc + 1) % 65536 })
    ∧ Z80.init.execute 0xCF = none :=
  ⟨bdos_hook_semantics.1 cpuBdosChar rfl,
   bdos_hook_semantics.2.1 cpuBdosTerm rfl (by decide) (by decide)
     ⟨0, by decide, by decide⟩,
   bdos_hook_semantics.2.2 Z80.init (by decide) (by decide)⟩

/-- Counterexample to C10 as stated: with C = 0x09 and no dollar byte (0x24)
anywhere in memory, the 0xCF step does not advance PC by one — the source
loop never terminates (embedded: the scan over all 65536 wrapped addresses
yields `none`). -/
theorem bdos_no_terminator_diverges : cpuBdosNone.execute 0xCF = none := by
  have hred : cpuBdosNone.execute 0xCF
      = (bdosString 65536 cpuBdosNone.mem cpuBdosNone.get_de).map
          (fun cs => { cpuBdosNone with out := cpuBdosNone.out ++ cs, pc := (cpuBdosNone.pc + 1) % 65536 }) := rfl
  rw [hred, bdosString_none cpuBdosNone.mem (fun _ => (by decide : (0 : Nat) ≠ 0x24)) 65536 _]
  rfl

/-- Running the LDIR loop with fuel equal to the iteration count always
succeeds: the loop terminates after exactly `count` iterations with both
pointers advanced by `count` (wrapping) and the count at 0.  Memory cells
outside the destination range are untouched, and when the destination
range does not meet the source range the destination receives a
byte-for-byte copy of the pre-loop source bytes. -/
theorem ldirLoop_run : ∀ (n : Nat), n < 65536 → ∀ (m : Nat → Nat) (src dst : Nat),
    src < 65536 → dst < 65536 →
    ∃ m2, ldirLoop n m src dst n = some (m2, (src + n) % 65536, (dst + n) % 65536, 0)
      ∧ (∀ x, (∀ i, i < n → x ≠ (dst + i) % 65536) → m2 x = m x)
      ∧ ((∀ i j, i < n → j < n → (dst + i) % 65536 ≠ (src + j) % 65536) →
          ∀ i, i < n → m2 ((dst + i) % 65536) = m ((src + i) % 65536)) := by
  intro n
  induction n with
  | zero =>
    intro _ m src dst hsrc hdst
    refine ⟨m, ?_, fun x _ => rfl, fun _ i hi => by omega⟩
    rw [ldirLoop, if_pos rfl]
    rw [show (src + 0) % 65536 = src from by omega, show (dst + 0) % 65536 = dst from by omega]
  | succ n ih =>
    intro hn m src dst hsrc hdst
    obtain ⟨m2, hrun, hframe, hcopy⟩ := ih (by omega) (memWrite m dst (m (src % 65536)))
      ((src + 1) % 65536) ((dst + 1) % 65536) (by omega) (by omega)
    refine ⟨m2, ?_, ?_, ?_⟩
    · rw [ldirLoop, if_neg (by omega : ¬ (n + 1 = 0))]
      show ldirLoop n (memWrite m dst (m (src % 65536))) ((src + 1) % 65536) ((dst + 1) % 65536)
        ((n + 1 + 65535) % 65536) = _
      rw [show (n + 1 + 65535) % 65536 = n from by omega, hrun]
      rw [show ((src + 1) % 65536 + n) % 65536 = (src + (n + 1)) % 65536 from by omega]
      rw [show ((dst + 1) % 65536 + n) % 65536 = (dst + (n + 1)) % 65536 from by omega]
    · intro x hx
      have hx0 : x ≠ dst := by
        have h0 := hx 0 (by omega)
        rw [Nat.add_zero, Nat.mod_eq_of_lt hdst] at h0
        exact h0
      have h1 : m2 x = memWrite m dst (m (src % 65536)) x := by
        refine hframe x (fun i hi => ?_)
        rw [show ((dst + 1) % 65536 + i) % 65536 = (dst + (i + 1)) % 65536 from by omega]
        exact hx (i + 1) (by omega)
      rw [h1]
      simp only [memWrite]
      rw [if_neg (by rw [Nat.mod_eq_of_lt hdst]; exact hx0)]
    · intro hdisj i hi
      rcases Nat.eq_zero_or_pos i with hi0 | hipos
      · subst hi0
        rw [show (dst + 0) % 65536 = dst from by omega,
            show (src + 0) % 65536 = src from by omega]
        have h1 : m2 dst = memWrite m dst (m (src % 65536)) dst := by
          refine hframe dst (fun j hj => ?_)
          rw [show ((dst + 1) % 65536 + j) % 65536 = (dst + (j + 1)) % 65536 from by omega]
          omega
        rw [h1]
        simp only [memWrite]
        rw [if_pos (by omega), Nat.mod_eq_of_lt hsrc]
      · obtain ⟨i2, rfl⟩ : ∃ i2, i = i2 + 1 := ⟨i - 1, by omega⟩
        rw [show (dst + (i2 + 1)) % 65536 = ((dst + 1) % 65536 + i2) % 65536 from by omega]
        have hdisj2 : ∀ a b, a < n → b < n →
            ((dst + 1) % 65536 + a) % 65536 ≠ ((src + 1) % 65536 + b) % 65536 := by
          intro a b ha hb
          rw [show ((dst + 1) % 65536 + a) % 65536 = (dst + (a + 1)) % 65536 from by omega,
              show ((src + 1) % 65536 + b) % 65536 = (src + (b + 1)) % 65536 from by omega]
          exact hdisj (a + 1) (b + 1) (by omega) (by omega)
        rw [hcopy hdisj2 i2 (by omega)]
        simp only [memWrite]
        have hne : ((src + 1) % 65536 + i2) % 65536 ≠ dst % 65536 := by
          have h0 := hdisj 0 (i2 + 1) (by omega) (by omega)
          omega
        rw [if_neg hne]
        rw [show ((src + 1) % 65536 + i2) % 65536 = (src + (i2 + 1)) % 65536 from by omega]

/-- `set_flag` with a `false` value only clears the masked bit of F. -/
theorem set_flag_false (s : Z80) (mask : Nat) :
    s.set_flag mask false = { s with f := s.f &&& (0xFF ^^^ mask) } := rfl

/-- The 0xED arm of `execute` in closed form. -/
theorem execute_ed (s : Z80) :
    s.execute 0xED
      = (if s.mem (((s.pc + 1) % 65536) % 65536) = 0xB0
         then (ldirLoop s.get_bc s.mem s.get_hl s.get_de s.get_bc).map
           (ldir_apply { s with pc := (s.pc + 1) % 65536 })
         else none) := rfl

/-- The LDIR loop-exit code written out field by field. -/
theorem ldir_apply_fields (s1 : Z80) (m : Nat → Nat) (src dst cnt : Nat) :
    ldir_apply s1 (m, src, dst, cnt)
      = { s1 with mem := m, b := (cnt >>> 8) % 256, c := cnt &&& 0xFF, d := (dst >>> 8) % 256, e := dst &&& 0xFF, h := (src >>> 8) % 256, l := src &&& 0xFF, f := s1.f &&& (0xFF ^^^ 0x04) &&& (0xFF ^^^ 0x10) &&& (0xFF ^^^ 0x02), pc := (s1.pc + 1) % 65536 } := rfl

set_option maxHeartbeats 1000000 in
/-- Claim C7 (amended): ED B0 (LDIR) terminates for every initial state
(the loop runs exactly BC iterations); afterwards BC = 0 and HL and DE are
advanced by the pre-call BC with 16-bit wrap; and PROVIDED the destination
range does not meet the source range (mod 2^16), memory from the original
DE onward is a byte-for-byte copy of the pre-call bytes from the original
HL.  With overlapping ranges the sequential copy rereads bytes it has
already overwritten and the claim fails (see `ldir_overlap_not_copy`). -/
theorem ldir_semantics (s : Z80)
    (hb : s.b < 256) (hc : s.c < 256) (hd : s.d < 256) (he : s.e < 256)
    (hh : s.h < 256) (hl2 : s.l < 256)
    (hext : s.mem ((s.pc + 1) % 65536) = 0xB0) :
    ∃ s2, s.execute 0xED = some s2
      ∧ s2.get_bc = 0
      ∧ s2.get_hl = (s.get_hl + s.get_bc) % 65536
      ∧ s2.get_de = (s.get_de + s.get_bc) % 65536
      ∧ ((∀ i j, i < s.get_bc → j < s.get_bc →
            (s.get_de + i) % 65536 ≠ (s.get_hl + j) % 65536) →
          ∀ i, i < s.get_bc → s2.mem ((s.get_de + i) % 65536) = s.mem ((s.get_hl + i) % 65536)) := by
  obtain ⟨rA, rF, rB, rC, rD, rE, rH, rL, sA, sF, sB, sC, sD, sE, sH, sL,
    vsp, vpc, vix, viy, vif1, vif2, vim, virq, vhalt, vmax, vcyc, vmem, vout⟩ := s
  simp only at hb hc hd he hh hl2 hext
  dsimp only [Z80.get_bc, Z80.get_de, Z80.get_hl]
  have hbcv : (rB <<< 8) ||| rC = rB * 256 + rC := or_shift8 _ _ hc
  have hhlv : (rH <<< 8) ||| rL = rH * 256 + rL := or_shift8 _ _ hl2
  have hdev : (rD <<< 8) ||| rE = rD * 256 + rE := or_shift8 _ _ he
  have hcond : vmem (((vpc + 1) % 65536) % 65536) = 0xB0 := by
    rw [show ((vpc + 1) % 65536) % 65536 = (vpc + 1) % 65536 from by omega]
    exact hext
  obtain ⟨m2, hrun, hframe, hcopy⟩ := ldirLoop_run ((rB <<< 8) ||| rC) (by omega) vmem
    ((rH <<< 8) ||| rL) ((rD <<< 8) ||| rE) (by omega) (by omega)
  refine ⟨ldir_apply { a := rA, f := rF, b := rB, c := rC, d := rD, e := rE, h := rH, l := rL, a_alt := sA, f_alt := sF, b_alt := sB, c_alt := sC, d_alt := sD, e_alt := sE, h_alt := sH, l_alt := sL, sp := vsp, pc := (vpc + 1) % 65536, ix := vix, iy := viy, iff1 := vif1, iff2 := vif2, im := vim, interrupt_request := virq, halted := vhalt, max_cycles := vmax, cycles := vcyc, mem := vmem, out := vout } (m2, ((rH <<< 8 ||| rL) + (rB <<< 8 ||| rC)) % 65536, ((rD <<< 8 ||| rE) + (rB <<< 8 ||| rC)) % 65536, 0), ?_, ?_, ?_, ?_, ?_⟩
  · rw [execute_ed]
    dsimp only [Z80.get_bc, Z80.get_de, Z80.get_hl]
    rw [if_pos hcond, hrun]
    rfl
  · simp only [ldir_apply_fields]
    decide
  · simp only [ldir_apply_fields]
    exact set_get_pair _ (by omega)
  · simp only [ldir_apply_fields]
    exact set_get_pair _ (by omega)
  · simp only [ldir_apply_fields]
    exact fun hdisj i hi => hcopy hdisj i hi

/-- Witness for C7 on the concrete state `cpuLdir` (BC=2, HL=0, DE=1). -/
theorem ldir_semantics_witness :
    ∃ s2, cpuLdir.execute 0xED = some s2
      ∧ s2.get_bc = 0
      ∧ s2.get_hl = (cpuLdir.get_hl + cpuLdir.get_bc) % 65536
      ∧ s2.get_de = (cpuLdir.get_de + cpuLdir.get_bc) % 65536
      ∧ ((∀ i j, i < cpuLdir.get_bc → j < cpuLdir.get_bc →
            (cpuLdir.get_de + i) % 65536 ≠ (cpuLdir.get_hl + j) % 65536) →
          ∀ i, i < cpuLdir.get_bc →
            s2.mem ((cpuLdir.get_de + i) % 65536) = cpuLdir.mem ((cpuLdir.get_hl + i) % 65536)) :=
  ldir_semantics cpuLdir (by decide) (by decide) (by decide) (by decide) (by decide) (by decide)
    (by decide)

/-- Counterexample to C7 as stated: on `cpuLdir` the source range (HL=0,
two bytes `[1, 2]`) overlaps the destination range (DE=1); after LDIR the
byte at DE+1 = 2 is 1 — the value the loop reread after overwriting — not
the pre-call source byte `mem[HL+1] = 2`, so the copy clause of the
unrestricted claim fails. -/
theorem ldir_overlap_not_copy :
    (cpuLdir.execute 0xED).map (fun t => t.mem 2) = some 1
    ∧ cpuLdir.mem 1 = 2
    ∧ (1 : Nat) ≠ 2 := by
  refine ⟨by decide, by decide, by decide⟩
